import Mathlib

/-!
# LaserSight core — shallow embedding

An embedding of the numeric core of the LaserSight repository (`types.ts`):
the scanner data model, the scan-rate estimator `getRecommendedScanRate`
(spec name `estimateScanRate`), and the three geometric conversion
functions `calculateWidth` / `calculateDistance` / `calculateAngle`
(spec names `convertToWidth` / `convertToDistance` / `convertToAngle`).

Numbers in the estimator are embedded as rationals `ℚ` (all of its
arithmetic is rational); the geometry functions use `ℝ` together with a
small `JsVal` type that records the source runtime's behaviour on
division by zero (`+Infinity`, `-Infinity`, `NaN`).

JavaScript specifics reproduced here:
* `Math.round x` rounds half toward `+∞`: `⌊x + 1/2⌋`;
* an `Option` number is *truthy* exactly when it is present and nonzero
  (`scanner.maxAngle && …`, `scanner.maxKpps ? … : …`);
* division of a positive number by zero yields `+Infinity`;
* `Array.prototype.sort` with comparator `(a, b) => a.angle - b.angle`
  sorts ascending by angle (stably).

The library's rational arithmetic is restored to its default
reducibility so that concrete runs of the estimator reduce inside the
kernel (every definition below is computable).
-/

set_option allowUnsafeReducibility true
attribute [semireducible] Rat.add Rat.mul Rat.sub Rat.inv Rat.div Rat.ofScientific

/-- One manufacturer calibration point (`ScannerSpec` in `types.ts`). -/
structure ScannerSpec where
  angle : ℚ
  kpps : ℚ
  note : String
deriving DecidableEq

/-- A scanner record (`Scanner` in `types.ts`); `maxAngle` and `maxKpps`
are optional fields. -/
structure Scanner where
  name : String
  specs : List ScannerSpec
  maxAngle : Option ℚ
  maxKpps : Option ℚ
deriving DecidableEq

/-- `export const MAX_ANGLE = 90`. -/
def MAX_ANGLE : ℚ := 90

/-- The result shape of `getRecommendedScanRate`: `{ kpps, note }`. -/
structure ScanRateResult where
  kpps : ℚ
  note : String
deriving DecidableEq

/-- JavaScript `Math.round`: round half toward positive infinity. -/
def jsRound (x : ℚ) : ℚ := ((⌊x + 1/2⌋ : ℤ) : ℚ)

/-- Truthiness of an optional numeric field: present and nonzero.
(`NaN`, the other falsy number, is outside the rational model.) -/
def truthyNum : Option ℚ → Bool
  | none => false
  | some x => decide (x ≠ 0)

/-- Rendering of a number into a note string (`${n}` in the source's
template literals); agrees with JavaScript on integral values. -/
def numStr (q : ℚ) : String :=
  if q.den = 1 then toString q.num else toString q

/-- `Math.max(0, Math.min(angle, MAX_ANGLE))` — the clamp applied to the
target angle (inline in the source). -/
def clampAngle (angle : ℚ) : ℚ := max 0 (min angle MAX_ANGLE)

/-- Ascending comparison by angle, the comparator
`(a, b) => a.angle - b.angle` of the source's sort call. -/
def specLE (a b : ScannerSpec) : Prop := a.angle ≤ b.angle

instance : DecidableRel specLE :=
  fun a b => inferInstanceAs (Decidable (a.angle ≤ b.angle))

instance : IsTotal ScannerSpec specLE := ⟨fun a b => le_total a.angle b.angle⟩

instance : IsTrans ScannerSpec specLE := ⟨fun _ _ _ h h' => le_trans h h'⟩

/-- `[...scanner.specs].sort((a, b) => a.angle - b.angle)` — ascending
stable sort by angle. -/
def sortSpecs (specs : List ScannerSpec) : List ScannerSpec :=
  specs.insertionSort specLE

/-- The source's bracket-search loop: the first adjacent pair of the
sorted list with `lower.angle ≤ a` and `upper.angle ≥ a`; `none` when no
adjacent pair qualifies (the source then keeps its initial
`(first, last)` values). -/
def findBracket (a : ℚ) : List ScannerSpec → Option (ScannerSpec × ScannerSpec)
  | x :: y :: rest =>
    if x.angle ≤ a ∧ a ≤ y.angle then some (x, y)
    else findBracket a (y :: rest)
  | _ => none

/-- `getRecommendedScanRate` from `types.ts` (spec name
`estimateScanRate`).  Faithful translation; the two places where the
source runtime would produce `+Infinity` are noted inline. -/
def getRecommendedScanRate (scanner : Option Scanner) (angle : ℚ) :
    ScanRateResult :=
  match scanner with
  | none => ⟨0, "Unknown"⟩
  | some s =>
    if s.specs = [] then ⟨0, "Unknown"⟩
    else if truthyNum s.maxAngle ∧ angle > s.maxAngle.getD 0 then
      ⟨0, "Exceeds max angle (" ++ numStr (s.maxAngle.getD 0) ++ "°)"⟩
    else
      let safeAngle := clampAngle angle
      let sortedSpecs := sortSpecs s.specs
      match sortedSpecs.find? (fun spec => decide (spec.angle = safeAngle)) with
      | some exactMatch => ⟨exactMatch.kpps, exactMatch.note⟩
      | none =>
        match sortedSpecs with
        | [] => ⟨0, "Unknown"⟩ -- unreachable: a permutation of non-empty `specs`
        | first :: rest =>
          let last := (first :: rest).getLast (List.cons_ne_nil first rest)
          if safeAngle < first.angle then
            -- ratio = sortedSpecs[0].angle / safeAngle; at safeAngle = 0 the
            -- runtime yields +Infinity (the numerator is positive here), so
            -- the 1.5 cap binds.
            let cappedRatio :=
              if safeAngle = 0 then (3/2 : ℚ)
              else min (first.angle / safeAngle) (3/2)
            let extrapolatedKpps := jsRound (first.kpps * cappedRatio)
            let limitedKpps :=
              if truthyNum s.maxKpps then min extrapolatedKpps (s.maxKpps.getD 0)
              else extrapolatedKpps
            ⟨limitedKpps,
              if s.maxKpps = some limitedKpps then
                "Max KPPS (" ++ numStr (s.maxKpps.getD 0) ++ "K)"
              else "Estimated (< " ++ numStr first.angle ++ "°)"⟩
          else if safeAngle > last.angle then
            -- at last.angle = 0 the runtime gives ratio = +Infinity, hence
            -- kpps = max(1, round(k/∞)) = 1; rational division by zero gives
            -- ratio = 0 and likewise max(1, round(k/0)) = 1.
            let ratio := safeAngle / last.angle
            let extrapolatedKpps := max 1 (jsRound (last.kpps / (ratio * ratio)))
            ⟨extrapolatedKpps, "Estimated (> " ++ numStr last.angle ++ "°)"⟩
          else
            let bracket := (findBracket safeAngle (first :: rest)).getD (first, last)
            let lowerSpec := bracket.1
            let upperSpec := bracket.2
            let ratio := (safeAngle - lowerSpec.angle) / (upperSpec.angle - lowerSpec.angle)
            let angleRatio := lowerSpec.angle / upperSpec.angle
            let weight := (1 - ratio) * (1 + angleRatio ^ 2)
            let smallerAngleSpec := if lowerSpec.angle < upperSpec.angle then lowerSpec else upperSpec
            let largerAngleSpec := if lowerSpec.angle < upperSpec.angle then upperSpec else lowerSpec
            let interpolatedKpps :=
              jsRound (smallerAngleSpec.kpps * weight + largerAngleSpec.kpps * (1 - weight))
            let clampedKpps :=
              if interpolatedKpps > max smallerAngleSpec.kpps largerAngleSpec.kpps ∨
                  interpolatedKpps < 0 then
                max smallerAngleSpec.kpps largerAngleSpec.kpps
              else interpolatedKpps
            let finalKpps := max 1 clampedKpps
            if truthyNum s.maxKpps ∧ finalKpps > s.maxKpps.getD 0 then
              ⟨s.maxKpps.getD 0, "Max KPPS (" ++ numStr (s.maxKpps.getD 0) ++ "K)"⟩
            else
              ⟨finalKpps,
                "Interpolated (" ++ numStr lowerSpec.angle ++ "° - " ++
                  numStr upperSpec.angle ++ "°)"⟩

example :
    getRecommendedScanRate
      (some ⟨"t", [⟨4, 60, "a"⟩, ⟨8, 40, "b"⟩], none, none⟩) 6 =
      ⟨53, "Interpolated (4° - 8°)"⟩ := by decide

example :
    getRecommendedScanRate
      (some ⟨"t", [⟨8, 40, "b"⟩], none, none⟩) 16 =
      ⟨10, "Estimated (> 8°)"⟩ := by decide

example :
    getRecommendedScanRate
      (some ⟨"t", [⟨8, 40, "b"⟩], none, none⟩) 2 =
      ⟨60, "Estimated (< 8°)"⟩ := by decide

example : getRecommendedScanRate none 5 = ⟨0, "Unknown"⟩ := by decide

theorem clampAngle_nonneg (angle : ℚ) : 0 ≤ clampAngle angle :=
  le_max_left 0 _

theorem jsRound_nonneg {x : ℚ} (h : 0 ≤ x) : 0 ≤ jsRound x := by
  unfold jsRound
  have h1 : (0:ℤ) ≤ ⌊x + 1/2⌋ := Int.le_floor.2 (by push_cast; linarith)
  exact_mod_cast h1

theorem jsRound_ge_one {x : ℚ} (h : 1 ≤ x) : 1 ≤ jsRound x := by
  unfold jsRound
  have h1 : (1:ℤ) ≤ ⌊x + 1/2⌋ := Int.le_floor.2 (by push_cast; linarith)
  exact_mod_cast h1

/-! ## Geometry functions

`calculateWidth`, `calculateDistance` and `calculateAngle` work on IEEE
numbers in the source; they are embedded over `ℝ`, with a small value
type recording the runtime's non-finite results (`+Infinity`,
`-Infinity`, `NaN`) where division by zero can occur. -/

/-- A JavaScript number that may be non-finite. -/
inductive JsVal where
  | nan : JsVal
  | inf : JsVal
  | ninf : JsVal
  | fin : ℝ → JsVal

/-- JavaScript division of finite numbers: a nonzero divisor gives the
real quotient; a zero divisor gives a signed infinity, or `NaN` for
`0 / 0`. -/
noncomputable def jsDiv (a b : ℝ) : JsVal :=
  if b ≠ 0 then .fin (a / b)
  else if 0 < a then .inf
  else if a < 0 then .ninf
  else .nan

/-- JavaScript `Math.atan`, extended to non-finite arguments. -/
noncomputable def jsAtan : JsVal → JsVal
  | .nan => .nan
  | .inf => .fin (Real.pi / 2)
  | .ninf => .fin (-(Real.pi / 2))
  | .fin x => .fin (Real.arctan x)

/-- Multiplication by a positive finite constant (the constants `2` and
`180 / π` of the source). -/
noncomputable def jsMulPos (c : ℝ) : JsVal → JsVal
  | .nan => .nan
  | .inf => .inf
  | .ninf => .ninf
  | .fin x => .fin (c * x)

/-- JavaScript `Math.min` against a finite bound: `NaN` propagates,
`+Infinity` is replaced by the bound. -/
noncomputable def jsMin (v : JsVal) (c : ℝ) : JsVal :=
  match v with
  | .nan => .nan
  | .inf => .fin c
  | .ninf => .ninf
  | .fin x => .fin (min x c)

/-- `calculateWidth` from `types.ts` (spec name `convertToWidth`):
`safeDistance * tan((safeAngle / 2) * (π / 180)) * 2`; every
intermediate value is finite. -/
noncomputable def calculateWidth (angle distance : ℝ) : ℝ :=
  let safeAngle := max 0 (min angle ((MAX_ANGLE : ℚ) : ℝ))
  let safeDistance := max 0 distance
  safeDistance * Real.tan ((safeAngle / 2) * (Real.pi / 180)) * 2

/-- `calculateDistance` from `types.ts` (spec name `convertToDistance`):
`safeWidth / (tan((safeAngle / 2) * (π / 180)) * 2)`; the division can
hit a zero divisor, hence the `JsVal` result. -/
noncomputable def calculateDistance (angle width : ℝ) : JsVal :=
  let safeAngle := max 0 (min angle ((MAX_ANGLE : ℚ) : ℝ))
  let safeWidth := max 0 width
  jsDiv safeWidth (Real.tan ((safeAngle / 2) * (Real.pi / 180)) * 2)

/-- `calculateAngle` from `types.ts` (spec name `convertToAngle`):
`min(2 * atan(safeWidth / (safeDistance * 2)) * (180 / π), MAX_ANGLE)`;
the inner division can hit a zero divisor. -/
noncomputable def calculateAngle (distance width : ℝ) : JsVal :=
  let safeDistance := max 0 distance
  let safeWidth := max 0 width
  jsMin (jsMulPos (180 / Real.pi) (jsMulPos 2 (jsAtan (jsDiv safeWidth (safeDistance * 2)))))
    ((MAX_ANGLE : ℚ) : ℝ)

/-! ## Geometry theorems -/

theorem maxAngleReal : ((MAX_ANGLE : ℚ) : ℝ) = 90 := by norm_num [MAX_ANGLE]

/-- C9: for every angle `a ∈ [0, 90]` and distance `d ≥ 0`,
`calculateWidth a d ≥ 0`, and doubling the distance exactly doubles the
width. -/
theorem calculateWidth_nonneg_linear (a d : ℝ) (ha0 : 0 ≤ a) (ha90 : a ≤ 90)
    (hd : 0 ≤ d) :
    0 ≤ calculateWidth a d ∧ calculateWidth a (2 * d) = 2 * calculateWidth a d := by
  have hclamp : max 0 (min a ((MAX_ANGLE : ℚ) : ℝ)) = a := by
    rw [maxAngleReal, min_eq_left ha90, max_eq_right ha0]
  have htan : 0 ≤ Real.tan ((a / 2) * (Real.pi / 180)) := by
    apply Real.tan_nonneg_of_nonneg_of_le_pi_div_two
    · have h1 : (0:ℝ) ≤ a / 2 := by linarith
      have h2 : (0:ℝ) ≤ Real.pi / 180 := by
        have := Real.pi_pos; linarith
      exact mul_nonneg h1 h2
    · have hpi := Real.pi_pos
      have h1 : a / 2 * (Real.pi / 180) ≤ 45 * (Real.pi / 180) := by
        have h2 : a / 2 ≤ 45 := by linarith
        have h3 : (0:ℝ) ≤ Real.pi / 180 := by linarith
        exact mul_le_mul_of_nonneg_right h2 h3
      have h4 : (45:ℝ) * (Real.pi / 180) = Real.pi / 4 := by ring
      rw [h4] at h1
      linarith
  constructor
  · simp only [calculateWidth, hclamp]
    have h2d : (0:ℝ) ≤ max 0 d := le_max_left 0 d
    have := mul_nonneg h2d htan
    linarith
  · simp only [calculateWidth, hclamp]
    rw [max_eq_right hd, max_eq_right (by linarith : (0:ℝ) ≤ 2 * d)]
    ring

/-- C9 witness: nonnegativity and distance-linearity at angle 60 and
distance 15. -/
theorem calculateWidth_nonneg_linear_witness :
    0 ≤ calculateWidth 60 15 ∧ calculateWidth 60 (2 * 15) = 2 * calculateWidth 60 15 :=
  calculateWidth_nonneg_linear 60 15 (by norm_num) (by norm_num) (by norm_num)

/-- C7: when the distance sanitizes to `0` (distance ≤ 0) and the width
sanitizes to a strictly positive value, `calculateAngle` returns exactly
`MAX_ANGLE`: the division yields `+Infinity`, `atan` gives `π/2`, the
raw angle is `180`, and the final clamp reduces it to the ceiling. -/
theorem calculateAngle_zero_distance (distance width : ℝ) (hd : distance ≤ 0)
    (hw : 0 < width) :
    calculateAngle distance width = JsVal.fin ((MAX_ANGLE : ℚ) : ℝ) := by
  have hsd : max 0 distance = 0 := max_eq_left hd
  have hsw : max 0 width = width := max_eq_right hw.le
  have hdiv : jsDiv (max 0 width) (max 0 distance * 2) = JsVal.inf := by
    rw [hsd, hsw]
    simp only [jsDiv, zero_mul, ne_eq, not_true_eq_false, if_false, if_pos hw]
  simp only [calculateAngle, hdiv, jsAtan, jsMulPos, jsMin]
  have hpi := Real.pi_pos
  have : 180 / Real.pi * (2 * (Real.pi / 2)) = 180 := by
    field_simp
  rw [this, maxAngleReal]
  norm_num

/-- C7 witness: `calculateAngle (-10) 5 = 90` exactly. -/
theorem calculateAngle_zero_distance_witness :
    calculateAngle (-10) 5 = JsVal.fin 90 := by
  have h := calculateAngle_zero_distance (-10) 5 (by norm_num) (by norm_num)
  rwa [maxAngleReal] at h

/-- C8: when the angle sanitizes to `0` (angle ≤ 0) the divisor of
`calculateDistance` is `0`; the result is defined (`+Infinity` for a
positive width, `NaN` for a width that sanitizes to `0`), never an
error. -/
theorem calculateDistance_zero_angle (angle width : ℝ) (ha : angle ≤ 0) :
    (0 < width → calculateDistance angle width = JsVal.inf) ∧
    (width ≤ 0 → calculateDistance angle width = JsVal.nan) := by
  have hclamp : max 0 (min angle ((MAX_ANGLE : ℚ) : ℝ)) = 0 := by
    rw [maxAngleReal, min_eq_left (by linarith : angle ≤ 90)]
    exact max_eq_left ha
  have htan : Real.tan ((0:ℝ) / 2 * (Real.pi / 180)) * 2 = 0 := by
    norm_num
  constructor
  · intro hw
    simp only [calculateDistance, hclamp, htan, jsDiv]
    rw [max_eq_right hw.le]
    simp only [ne_eq, not_true_eq_false, if_false, if_pos hw]
  · intro hw
    simp only [calculateDistance, hclamp, htan, jsDiv]
    rw [max_eq_left hw]
    norm_num

/-- C8 witness: `calculateDistance (-1) 5` is the `+Infinity`
sentinel. -/
theorem calculateDistance_zero_angle_witness :
    calculateDistance (-1) 5 = JsVal.inf :=
  (calculateDistance_zero_angle (-1) 5 (by norm_num)).1 (by norm_num)

/-! ## Estimator theorems -/

/-- C1 counterexample: a scanner whose `maxAngle` field is defined but
equal to `0` is never gated — `0` is falsy, so the source's
`scanner.maxAngle && angle > scanner.maxAngle` test is skipped and the
estimator extrapolates instead of returning the "Exceeds max angle"
sentinel. -/
theorem scanRate_maxAngle_zero_not_gated :
    getRecommendedScanRate (some ⟨"c1", [⟨8, 40, "x"⟩], some 0, none⟩) 5 =
        ⟨60, "Estimated (< 8°)"⟩ ∧
      getRecommendedScanRate (some ⟨"c1", [⟨8, 40, "x"⟩], some 0, none⟩) 5 ≠
        ⟨0, "Exceeds max angle (0°)"⟩ := by
  constructor
  · decide
  · decide

/-- C1 (amended): for every scanner with a non-empty spec table whose
`maxAngle` is defined and **nonzero** (truthy), and every raw target
angle strictly greater than that `maxAngle`, the estimator returns
`kpps = 0` with the "Exceeds max angle" note; the comparison uses the
raw, unclamped angle. -/
theorem scanRate_exceeds_maxAngle (s : Scanner) (angle m : ℚ)
    (hne : s.specs ≠ []) (hm : s.maxAngle = some m) (hm0 : m ≠ 0)
    (hgt : m < angle) :
    getRecommendedScanRate (some s) angle =
      ⟨0, "Exceeds max angle (" ++ numStr m ++ "°)"⟩ := by
  simp only [getRecommendedScanRate, if_neg hne]
  rw [if_pos]
  · rw [hm]
    rfl
  · refine ⟨?_, ?_⟩
    · simp [truthyNum, hm, hm0]
    · rw [hm]
      exact hgt

/-- C1 witness: with `maxAngle = 95` and raw angle `100` the gate fires
even though the clamped angle `90` would not exceed `95`. -/
theorem scanRate_exceeds_maxAngle_witness :
    getRecommendedScanRate (some ⟨"w1", [⟨8, 40, "x"⟩], some 95, none⟩) 100 =
      ⟨0, "Exceeds max angle (95°)"⟩ := by
  have h := scanRate_exceeds_maxAngle ⟨"w1", [⟨8, 40, "x"⟩], some 95, none⟩ 100 95
    (by decide) rfl (by decide) (by decide)
  rw [h]
  decide

/-! ### Facts about the sorted spec list -/

theorem sortSpecs_perm (specs : List ScannerSpec) : List.Perm (sortSpecs specs) specs :=
  List.perm_insertionSort specLE specs

theorem mem_sortSpecs {specs : List ScannerSpec} {p : ScannerSpec} :
    p ∈ sortSpecs specs ↔ p ∈ specs :=
  (sortSpecs_perm specs).mem_iff

theorem sortSpecs_sorted (specs : List ScannerSpec) :
    (sortSpecs specs).Sorted specLE :=
  List.sorted_insertionSort specLE specs

theorem sortSpecs_ne_nil {specs : List ScannerSpec} (h : specs ≠ []) :
    sortSpecs specs ≠ [] := by
  intro hc
  apply h
  have hlen := (sortSpecs_perm specs).length_eq
  rw [hc] at hlen
  exact List.length_eq_zero.1 hlen.symm

/-- In a sorted list, the head angle is minimal. -/
theorem sorted_head_min {first : ScannerSpec} {rest : List ScannerSpec}
    (hs : (first :: rest).Sorted specLE) :
    ∀ p ∈ first :: rest, first.angle ≤ p.angle := by
  intro p hp
  rcases List.mem_cons.1 hp with h | h
  · rw [h]
  · exact (List.pairwise_cons.1 hs).1 p h

/-- The bracket loop, run on a sorted list with no exact match that
contains an angle below `a` and an angle above `a`, finds an adjacent
pair straddling `a` strictly; every other spec angle stays outside the
open interval. -/
theorem findBracket_strict :
    ∀ (l : List ScannerSpec) (a : ℚ), l.Sorted specLE →
      (∀ p ∈ l, p.angle ≠ a) →
      (∃ p ∈ l, p.angle < a) →
      (∃ p ∈ l, a < p.angle) →
      ∃ lo up, findBracket a l = some (lo, up) ∧ lo ∈ l ∧ up ∈ l ∧
        lo.angle < a ∧ a < up.angle ∧
        (∀ p ∈ l, p.angle < a → p.angle ≤ lo.angle) ∧
        (∀ p ∈ l, a < p.angle → up.angle ≤ p.angle) := by
  intro l
  induction l with
  | nil =>
    intro a _ _ hlo _
    rcases hlo with ⟨p, hp, _⟩
    exact absurd hp (List.not_mem_nil p)
  | cons x t ih =>
    intro a hs hnm hlo hup
    cases t with
    | nil =>
      rcases hlo with ⟨p, hp, hpa⟩
      rcases hup with ⟨q, hq, hqa⟩
      have hp' : p = x := by simpa using hp
      have hq' : q = x := by simpa using hq
      rw [hp'] at hpa
      rw [hq'] at hqa
      linarith
    | cons y t' =>
      have hx_lt : x.angle < a := by
        rcases hlo with ⟨p, hp, hpa⟩
        have := sorted_head_min hs p hp
        linarith
      have hs' : (y :: t').Sorted specLE := (List.pairwise_cons.1 hs).2
      by_cases hcond : x.angle ≤ a ∧ a ≤ y.angle
      · have hy_gt : a < y.angle :=
          lt_of_le_of_ne hcond.2 (Ne.symm (hnm y (by simp)))
        refine ⟨x, y, ?_, by simp, by simp, hx_lt, hy_gt, ?_, ?_⟩
        · simp only [findBracket, if_pos hcond]
        · intro p hp hpa
          rcases List.mem_cons.1 hp with h | h
          · rw [h]
          · have h1 : y.angle ≤ p.angle := sorted_head_min hs' p h
            linarith
        · intro p hp hpa
          rcases List.mem_cons.1 hp with h | h
          · rw [h] at hpa
            linarith
          · exact sorted_head_min hs' p h
      · have hy_lt : y.angle < a := by
          rcases not_and_or.1 hcond with h | h
          · exact absurd hx_lt.le h
          · exact lt_of_not_le h
        have hnm' : ∀ p ∈ y :: t', p.angle ≠ a :=
          fun p hp => hnm p (List.mem_cons_of_mem x hp)
        have hlo' : ∃ p ∈ y :: t', p.angle < a := ⟨y, by simp, hy_lt⟩
        have hup' : ∃ p ∈ y :: t', a < p.angle := by
          rcases hup with ⟨q, hq, hqa⟩
          rcases List.mem_cons.1 hq with h | h
          · rw [h] at hqa
            linarith
          · exact ⟨q, h, hqa⟩
        rcases ih a hs' hnm' hlo' hup' with
          ⟨lo, up, hfb, hlom, hupm, hloa, hupa, hmax, hmin⟩
        refine ⟨lo, up, ?_, List.mem_cons_of_mem x hlom,
          List.mem_cons_of_mem x hupm, hloa, hupa, ?_, ?_⟩
        · simp only [findBracket, if_neg hcond]
          exact hfb
        · intro p hp hpa
          rcases List.mem_cons.1 hp with h | h
          · rw [h]
            have h1 : x.angle ≤ y.angle := (List.pairwise_cons.1 hs).1 y (by simp)
            have h2 : y.angle ≤ lo.angle := hmax y (by simp) hy_lt
            linarith
          · exact hmax p h hpa
        · intro p hp hpa
          rcases List.mem_cons.1 hp with h | h
          · rw [h] at hpa
            linarith
          · exact hmin p h hpa

/-- In a sorted list, the angle of the last element is maximal. -/
theorem sorted_last_max :
    ∀ (l : List ScannerSpec) (hl : l ≠ []), l.Sorted specLE →
      ∀ p ∈ l, p.angle ≤ (l.getLast hl).angle := by
  intro l
  induction l with
  | nil => intro hl; exact absurd rfl hl
  | cons x t ih =>
    intro hl hs p hp
    match t, hp with
    | [], hp =>
      rcases List.mem_cons.1 hp with h | h
      · rw [h]; exact le_refl _
      · exact absurd h (List.not_mem_nil p)
    | y :: t', hp =>
      have hlast : (x :: y :: t').getLast hl = (y :: t').getLast (List.cons_ne_nil y t') :=
        List.getLast_cons (List.cons_ne_nil y t')
      rw [hlast]
      rcases List.mem_cons.1 hp with h | h
      · rw [h]
        exact (List.pairwise_cons.1 hs).1 _ (List.getLast_mem (List.cons_ne_nil y t'))
      · exact ih (List.cons_ne_nil y t') (List.pairwise_cons.1 hs).2 p h

/-- If no spec point matches the clamped angle, the exact-match lookup
fails. -/
theorem find?_none_of_no_match {specs : List ScannerSpec} {a : ℚ}
    (h : ∀ q ∈ specs, q.angle ≠ a) :
    (sortSpecs specs).find? (fun spec => decide (spec.angle = a)) = none := by
  rw [List.find?_eq_none]
  intro x hx
  simp only [decide_eq_true_eq]
  exact h x (mem_sortSpecs.1 hx)

/-- If some spec point matches `a`, the exact-match lookup returns a
matching member of the spec table. -/
theorem find?_some_of_match {specs : List ScannerSpec} {a : ℚ}
    (hex : ∃ p ∈ specs, p.angle = a) :
    ∃ q, (sortSpecs specs).find? (fun spec => decide (spec.angle = a)) = some q ∧
      q ∈ specs ∧ q.angle = a := by
  rcases hex with ⟨p, hp, hpa⟩
  have hsome : ((sortSpecs specs).find? (fun spec => decide (spec.angle = a))).isSome := by
    rw [List.find?_isSome]
    exact ⟨p, mem_sortSpecs.2 hp, by simp [hpa]⟩
  rcases Option.isSome_iff_exists.1 hsome with ⟨q, hq⟩
  refine ⟨q, hq, mem_sortSpecs.1 (List.mem_of_find?_eq_some hq), ?_⟩
  have := List.find?_some hq
  simpa using this

/-- The head of the sorted spec list is a point of (uniquely) minimal
angle. -/
theorem sortSpecs_head_eq {specs : List ScannerSpec} {p₀ first : ScannerSpec}
    {rest : List ScannerSpec} (hsort : sortSpecs specs = first :: rest)
    (hp₀ : p₀ ∈ specs) (hmin : ∀ q ∈ specs, p₀.angle ≤ q.angle)
    (huniq : ∀ q ∈ specs, q.angle = p₀.angle → q = p₀) : first = p₀ := by
  have hfm : first ∈ specs := by
    apply mem_sortSpecs.1
    rw [hsort]
    exact List.mem_cons_self first rest
  have h1 : p₀.angle ≤ first.angle := hmin first hfm
  have h2 : first.angle ≤ p₀.angle := by
    have hp₀' : p₀ ∈ sortSpecs specs := mem_sortSpecs.2 hp₀
    rw [hsort] at hp₀'
    have hs := sortSpecs_sorted specs
    rw [hsort] at hs
    exact sorted_head_min hs p₀ hp₀'
  exact huniq first hfm (le_antisymm h2 h1)

/-- The last element of the sorted spec list is a point of (uniquely)
maximal angle. -/
theorem sortSpecs_last_eq {specs : List ScannerSpec} {p₀ first : ScannerSpec}
    {rest : List ScannerSpec} (hsort : sortSpecs specs = first :: rest)
    (hp₀ : p₀ ∈ specs) (hmax : ∀ q ∈ specs, q.angle ≤ p₀.angle)
    (huniq : ∀ q ∈ specs, q.angle = p₀.angle → q = p₀) :
    (first :: rest).getLast (List.cons_ne_nil first rest) = p₀ := by
  have hlm : (first :: rest).getLast (List.cons_ne_nil first rest) ∈ specs := by
    apply mem_sortSpecs.1
    rw [hsort]
    exact List.getLast_mem (List.cons_ne_nil first rest)
  have h1 : ((first :: rest).getLast (List.cons_ne_nil first rest)).angle ≤ p₀.angle :=
    hmax _ hlm
  have h2 : p₀.angle ≤ ((first :: rest).getLast (List.cons_ne_nil first rest)).angle := by
    have hp₀' : p₀ ∈ sortSpecs specs := mem_sortSpecs.2 hp₀
    rw [hsort] at hp₀'
    have hs := sortSpecs_sorted specs
    rw [hsort] at hs
    exact sorted_last_max (first :: rest) (List.cons_ne_nil first rest) hs p₀ hp₀'
  exact huniq _ hlm (le_antisymm h1 h2)

/-- C6: when some spec point's angle equals the clamped target angle
exactly, the estimator returns that point's `kpps` and `note` verbatim
— in particular no `maxKpps` cap is applied even when `maxKpps` is
defined and the point's `kpps` exceeds it. -/
theorem scanRate_exact_match (s : Scanner) (angle : ℚ)
    (hgate : ¬(truthyNum s.maxAngle = true ∧ s.maxAngle.getD 0 < angle))
    (hex : ∃ p ∈ s.specs, p.angle = clampAngle angle) :
    getRecommendedScanRate (some s) angle ∈
      (s.specs.filter (fun q => decide (q.angle = clampAngle angle))).map
        (fun q => ScanRateResult.mk q.kpps q.note) := by
  have hne : s.specs ≠ [] := by
    rcases hex with ⟨p, hp, _⟩
    exact List.ne_nil_of_mem hp
  obtain ⟨q, hfind, hqmem, hqa⟩ := find?_some_of_match hex
  simp only [getRecommendedScanRate, if_neg hne, if_neg hgate, hfind]
  apply List.mem_map_of_mem
  rw [List.mem_filter]
  exact ⟨hqmem, by simp [hqa]⟩

/-- C6 witness: an exact match at angle 8 returns the table entry
`{40, "ILDA"}` verbatim although `maxKpps = 30` is exceeded. -/
theorem scanRate_exact_match_witness :
    getRecommendedScanRate (some ⟨"w6", [⟨8, 40, "ILDA"⟩], none, some 30⟩) 8 ∈
      (([⟨8, 40, "ILDA"⟩] : List ScannerSpec).filter
          (fun q => decide (q.angle = clampAngle 8))).map
        (fun q => ScanRateResult.mk q.kpps q.note) :=
  scanRate_exact_match ⟨"w6", [⟨8, 40, "ILDA"⟩], none, some 30⟩ 8 (by decide)
    (by decide)

/-- C3 counterexample: `maxKpps` defined but equal to `0` is falsy, so
the below-range extrapolation is *not* clamped down to it ­— the claim
would demand `{0, "Max KPPS (0K)"}` here. -/
theorem scanRate_below_maxKpps_zero_unclamped :
    getRecommendedScanRate (some ⟨"c3", [⟨8, 40, "x"⟩], none, some 0⟩) 4 =
        ⟨60, "Estimated (< 8°)"⟩ ∧
      getRecommendedScanRate (some ⟨"c3", [⟨8, 40, "x"⟩], none, some 0⟩) 4 ≠
        ⟨0, "Max KPPS (0K)"⟩ := by
  constructor
  · decide
  · decide

/-- C3 (amended): below the (unique) smallest spec angle, the estimator
rounds `smallestKpps * min(smallestAngle / a, 1.5)` and clamps the
result down to `maxKpps` when `maxKpps` is defined and **nonzero**
(truthy); the note is the "Max KPPS" note exactly when the clamp binds
(`maxKpps ≤` the rounded value) and the "Estimated (< smallestAngle°)"
note otherwise.  (At `a = 0` the source's division yields `+Infinity`
and the `1.5` cap binds.) -/
theorem scanRate_below_range (s : Scanner) (angle : ℚ) (p₀ : ScannerSpec)
    (hgate : ¬(truthyNum s.maxAngle = true ∧ s.maxAngle.getD 0 < angle))
    (hp₀ : p₀ ∈ s.specs)
    (hmin : ∀ q ∈ s.specs, p₀.angle ≤ q.angle)
    (huniq : ∀ q ∈ s.specs, q.angle = p₀.angle → q = p₀)
    (hbelow : clampAngle angle < p₀.angle)
    (hmk : s.maxKpps ≠ some 0) :
    getRecommendedScanRate (some s) angle =
      (let a := clampAngle angle
      let cappedRatio := if a = 0 then (3/2 : ℚ) else min (p₀.angle / a) (3/2)
      let raw := jsRound (p₀.kpps * cappedRatio)
      match s.maxKpps with
      | some m =>
        ScanRateResult.mk (min raw m)
          (if m ≤ raw then "Max KPPS (" ++ numStr m ++ "K)"
          else "Estimated (< " ++ numStr p₀.angle ++ "°)")
      | none => ScanRateResult.mk raw ("Estimated (< " ++ numStr p₀.angle ++ "°)")) := by
  have hne : s.specs ≠ [] := List.ne_nil_of_mem hp₀
  have hnm : ∀ q ∈ s.specs, q.angle ≠ clampAngle angle := by
    intro q hq
    have := hmin q hq
    intro hc
    rw [hc] at this
    linarith
  obtain ⟨first, rest, hsort⟩ := List.exists_cons_of_ne_nil (sortSpecs_ne_nil hne)
  have hfirst : first = p₀ := sortSpecs_head_eq hsort hp₀ hmin huniq
  subst hfirst
  have hfind := find?_none_of_no_match hnm
  rw [hsort] at hfind
  simp only [getRecommendedScanRate, if_neg hne, if_neg hgate, hsort, hfind]
  rw [if_pos hbelow]
  cases hmks : s.maxKpps with
  | none => simp only [hmks, truthyNum, Bool.false_eq_true, if_false, reduceCtorEq]
  | some m =>
    have hm0 : m ≠ 0 := by
      intro hc
      rw [hc] at hmks
      exact hmk hmks
    have htr : truthyNum (some m) = true := by simp [truthyNum, hm0]
    simp only [hmks, htr, if_true, Option.getD_some, Option.some.injEq]
    refine congrArg₂ ScanRateResult.mk rfl ?_
    by_cases hle : m ≤ jsRound (first.kpps * if clampAngle angle = 0 then (3/2:ℚ)
      else min (first.angle / clampAngle angle) (3/2))
    · rw [if_pos hle, if_pos (min_eq_right hle).symm]
    · rw [if_neg hle, if_neg]
      intro hc
      exact hle (min_eq_right_iff.1 hc.symm)

/-- C3 witness: specs `{4°: 60K}` with `maxKpps = 65` queried at `3°`:
ratio `4/3` is below the cap, `round(60 * 4/3) = 80` clamps to `65` with
the "Max KPPS" note. -/
theorem scanRate_below_range_witness :
    getRecommendedScanRate (some ⟨"w3", [⟨4, 60, "x"⟩], none, some 65⟩) 3 =
      ⟨65, "Max KPPS (65K)"⟩ := by
  have h := scanRate_below_range ⟨"w3", [⟨4, 60, "x"⟩], none, some 65⟩ 3 ⟨4, 60, "x"⟩
    (by decide) (by decide) (by decide) (by decide) (by decide) (by decide)
  rw [h]
  decide

/-- C5: above the (unique) largest spec angle the estimator applies the
quadratic falloff `max(1, round(largestKpps / (a / largestAngle)²))`
with the "Estimated (> largestAngle°)" note, and no `maxKpps` clamp is
applied in this branch. -/
theorem scanRate_above_range (s : Scanner) (angle : ℚ) (p₀ : ScannerSpec)
    (hgate : ¬(truthyNum s.maxAngle = true ∧ s.maxAngle.getD 0 < angle))
    (hp₀ : p₀ ∈ s.specs)
    (hmax : ∀ q ∈ s.specs, q.angle ≤ p₀.angle)
    (huniq : ∀ q ∈ s.specs, q.angle = p₀.angle → q = p₀)
    (habove : p₀.angle < clampAngle angle) :
    getRecommendedScanRate (some s) angle =
      ⟨max 1 (jsRound (p₀.kpps / (clampAngle angle / p₀.angle) ^ 2)),
        "Estimated (> " ++ numStr p₀.angle ++ "°)"⟩ := by
  have hne : s.specs ≠ [] := List.ne_nil_of_mem hp₀
  have hnm : ∀ q ∈ s.specs, q.angle ≠ clampAngle angle := by
    intro q hq
    have := hmax q hq
    intro hc
    rw [hc] at this
    linarith
  obtain ⟨first, rest, hsort⟩ := List.exists_cons_of_ne_nil (sortSpecs_ne_nil hne)
  have hlast : (first :: rest).getLast (List.cons_ne_nil first rest) = p₀ :=
    sortSpecs_last_eq hsort hp₀ hmax huniq
  have hfmem : first ∈ s.specs := by
    apply mem_sortSpecs.1
    rw [hsort]
    exact List.mem_cons_self first rest
  have hnotbelow : ¬(clampAngle angle < first.angle) := by
    have := hmax first hfmem
    push_neg
    linarith
  have hfind := find?_none_of_no_match hnm
  rw [hsort] at hfind
  simp only [getRecommendedScanRate, if_neg hne, if_neg hgate, hsort, hfind]
  rw [if_neg hnotbelow, hlast, if_pos habove]
  rw [pow_two]

/-- C5 witness: the claim's instance — single spec `{8°: 40K}` queried
at the doubled angle `16°` gives `40 / 2² = 10`. -/
theorem scanRate_above_range_witness :
    getRecommendedScanRate (some ⟨"w5", [⟨8, 40, "x"⟩], none, none⟩) 16 =
      ⟨10, "Estimated (> 8°)"⟩ := by
  have h := scanRate_above_range ⟨"w5", [⟨8, 40, "x"⟩], none, none⟩ 16 ⟨8, 40, "x"⟩
    (by decide) (by decide) (by decide) (by decide) (by decide)
  rw [h]
  decide

/-- C4 counterexample: in the interpolation branch a defined `maxKpps`
of `0` is falsy and never caps — the claim would demand
`{0, "Max KPPS (0K)"}` here, but the interpolated `53` is returned. -/
theorem scanRate_interp_maxKpps_zero_uncapped :
    getRecommendedScanRate
        (some ⟨"c4", [⟨4, 60, "a"⟩, ⟨8, 40, "b"⟩], none, some 0⟩) 6 =
        ⟨53, "Interpolated (4° - 8°)"⟩ ∧
      getRecommendedScanRate
        (some ⟨"c4", [⟨4, 60, "a"⟩, ⟨8, 40, "b"⟩], none, some 0⟩) 6 ≠
        ⟨0, "Max KPPS (0K)"⟩ := by
  constructor
  · decide
  · decide

/-- C4 (amended): between two bracketing spec points `lo < a < up`
(every other spec angle outside the open bracket, `lo` and `up` unique
at their angles) the estimator computes
`weight = (1 - (a - lo)/(up - lo)) * (1 + (lo/up)²)`, blends
`lo.kpps * weight + up.kpps * (1 - weight)`, rounds, replaces the result
with `max lo.kpps up.kpps` when it exceeds that maximum or is negative,
floors at `1`, and — unless `maxKpps` is defined, **nonzero** (truthy)
and strictly below the floored value, which yields the "Max KPPS" note —
returns the "Interpolated (lo° - up°)" note. -/
theorem scanRate_interpolates (s : Scanner) (angle : ℚ) (lo up : ScannerSpec)
    (hgate : ¬(truthyNum s.maxAngle = true ∧ s.maxAngle.getD 0 < angle))
    (hlo : lo ∈ s.specs) (hup : up ∈ s.specs)
    (hloa : lo.angle < clampAngle angle) (hupa : clampAngle angle < up.angle)
    (hnm : ∀ q ∈ s.specs, q.angle ≠ clampAngle angle)
    (hbr : ∀ q ∈ s.specs, q.angle ≤ lo.angle ∨ up.angle ≤ q.angle)
    (huniqlo : ∀ q ∈ s.specs, q.angle = lo.angle → q = lo)
    (huniqup : ∀ q ∈ s.specs, q.angle = up.angle → q = up)
    (hmk : s.maxKpps ≠ some 0) :
    getRecommendedScanRate (some s) angle =
      (let a := clampAngle angle
      let ratio := (a - lo.angle) / (up.angle - lo.angle)
      let weight := (1 - ratio) * (1 + (lo.angle / up.angle) ^ 2)
      let interpolated := jsRound (lo.kpps * weight + up.kpps * (1 - weight))
      let clamped :=
        if max lo.kpps up.kpps < interpolated ∨ interpolated < 0 then
          max lo.kpps up.kpps
        else interpolated
      let finalKpps := max 1 clamped
      match s.maxKpps with
      | some m =>
        if m < finalKpps then ScanRateResult.mk m ("Max KPPS (" ++ numStr m ++ "K)")
        else ScanRateResult.mk finalKpps
          ("Interpolated (" ++ numStr lo.angle ++ "° - " ++ numStr up.angle ++ "°)")
      | none => ScanRateResult.mk finalKpps
          ("Interpolated (" ++ numStr lo.angle ++ "° - " ++ numStr up.angle ++ "°)")) := by
  have hne : s.specs ≠ [] := List.ne_nil_of_mem hlo
  obtain ⟨first, rest, hsort⟩ := List.exists_cons_of_ne_nil (sortSpecs_ne_nil hne)
  have hs := sortSpecs_sorted s.specs
  have hnm' : ∀ q ∈ sortSpecs s.specs, q.angle ≠ clampAngle angle :=
    fun q hq => hnm q (mem_sortSpecs.1 hq)
  have hlo' : ∃ p ∈ sortSpecs s.specs, p.angle < clampAngle angle :=
    ⟨lo, mem_sortSpecs.2 hlo, hloa⟩
  have hup' : ∃ p ∈ sortSpecs s.specs, clampAngle angle < p.angle :=
    ⟨up, mem_sortSpecs.2 hup, hupa⟩
  obtain ⟨lo', up', hfb, hlom, hupm, hloa', hupa', hmaxb, hminb⟩ :=
    findBracket_strict (sortSpecs s.specs) (clampAngle angle) hs hnm' hlo' hup'
  have hlo'eq : lo' = lo := by
    apply huniqlo lo' (mem_sortSpecs.1 hlom)
    have h1 : lo'.angle ≤ lo.angle := by
      rcases hbr lo' (mem_sortSpecs.1 hlom) with h | h
      · exact h
      · linarith
    have h2 : lo.angle ≤ lo'.angle := hmaxb lo (mem_sortSpecs.2 hlo) hloa
    exact le_antisymm h1 h2
  have hup'eq : up' = up := by
    apply huniqup up' (mem_sortSpecs.1 hupm)
    have h1 : up.angle ≤ up'.angle := by
      rcases hbr up' (mem_sortSpecs.1 hupm) with h | h
      · linarith
      · exact h
    have h2 : up'.angle ≤ up.angle := hminb up (mem_sortSpecs.2 hup) hupa
    exact le_antisymm h2 h1
  rw [hlo'eq, hup'eq] at hfb
  have hfmem : first ∈ s.specs := by
    apply mem_sortSpecs.1
    rw [hsort]
    exact List.mem_cons_self first rest
  have hlmem : (first :: rest).getLast (List.cons_ne_nil first rest) ∈ s.specs := by
    apply mem_sortSpecs.1
    rw [hsort]
    exact List.getLast_mem (List.cons_ne_nil first rest)
  have hsC : (first :: rest).Sorted specLE := by
    rw [← hsort]
    exact hs
  have hnotbelow : ¬(clampAngle angle < first.angle) := by
    push_neg
    have h1 : first.angle ≤ lo.angle := by
      have := sorted_head_min hsC lo (by rw [← hsort]; exact mem_sortSpecs.2 hlo)
      exact this
    linarith
  have hnotabove :
      ¬(clampAngle angle > ((first :: rest).getLast (List.cons_ne_nil first rest)).angle) := by
    push_neg
    have h1 : up.angle ≤ ((first :: rest).getLast (List.cons_ne_nil first rest)).angle := by
      apply sorted_last_max (first :: rest) (List.cons_ne_nil first rest) hsC
      rw [← hsort]
      exact mem_sortSpecs.2 hup
    linarith
  have hfind := find?_none_of_no_match hnm
  rw [hsort] at hfind
  rw [hsort] at hfb
  simp only [getRecommendedScanRate, if_neg hne, if_neg hgate, hsort, hfind]
  rw [if_neg hnotbelow, if_neg hnotabove, hfb]
  simp only [Option.getD_some, if_pos (lt_trans hloa hupa)]
  cases hmks : s.maxKpps with
  | none =>
    simp only [hmks, truthyNum, Bool.false_eq_true, false_and, if_false]
  | some m =>
    have hm0 : m ≠ 0 := by
      intro hc
      rw [hc] at hmks
      exact hmk hmks
    have htr : truthyNum (some m) = true := by simp [truthyNum, hm0]
    simp only [hmks, htr, true_and, Option.getD_some]

/-- C4 witness: specs `{4°: 60K, 8°: 40K}` at `6°`: ratio `1/2`, weight
`5/8`, `round(60·5/8 + 40·3/8) = round(52.5) = 53`, inside the sanity
range, no cap. -/
theorem scanRate_interpolates_witness :
    getRecommendedScanRate (some ⟨"w4", [⟨4, 60, "a"⟩, ⟨8, 40, "b"⟩], none, none⟩) 6 =
      ⟨53, "Interpolated (4° - 8°)"⟩ := by
  have h := scanRate_interpolates ⟨"w4", [⟨4, 60, "a"⟩, ⟨8, 40, "b"⟩], none, none⟩ 6
    ⟨4, 60, "a"⟩ ⟨8, 40, "b"⟩ (by decide) (by decide) (by decide) (by decide)
    (by decide) (by decide) (by decide) (by decide) (by decide) (by decide)
  rw [h]
  decide

/-- C10: whenever the interpolation branch is reached (no exact match,
some spec angle strictly below and some strictly above the clamped
target), the source's bracket loop finds a pair, the pair straddles the
clamped angle strictly — even when the table contains duplicate angles —
and the normalized-position denominator is nonzero. -/
theorem scanRate_bracket_never_degenerate (s : Scanner) (angle : ℚ)
    (hnm : ∀ q ∈ s.specs, q.angle ≠ clampAngle angle)
    (hlo : ∃ p ∈ s.specs, p.angle < clampAngle angle)
    (hup : ∃ p ∈ s.specs, clampAngle angle < p.angle) :
    (findBracket (clampAngle angle) (sortSpecs s.specs)).isSome = true ∧
      ∀ lo up, findBracket (clampAngle angle) (sortSpecs s.specs) = some (lo, up) →
        lo.angle < clampAngle angle ∧ clampAngle angle < up.angle ∧
          up.angle - lo.angle ≠ 0 := by
  have hnm' : ∀ q ∈ sortSpecs s.specs, q.angle ≠ clampAngle angle :=
    fun q hq => hnm q (mem_sortSpecs.1 hq)
  rcases hlo with ⟨p, hp, hpa⟩
  rcases hup with ⟨q, hq, hqa⟩
  obtain ⟨lo', up', hfb, _, _, hloa', hupa', _, _⟩ :=
    findBracket_strict (sortSpecs s.specs) (clampAngle angle)
      (sortSpecs_sorted s.specs) hnm' ⟨p, mem_sortSpecs.2 hp, hpa⟩
      ⟨q, mem_sortSpecs.2 hq, hqa⟩
  constructor
  · rw [hfb]
    rfl
  · intro lo up h
    rw [hfb] at h
    have hpair : lo' = lo ∧ up' = up := by
      have := Option.some.inj h
      exact ⟨congrArg Prod.fst this, congrArg Prod.snd this⟩
    rcases hpair with ⟨h1, h2⟩
    rw [← h1, ← h2]
    refine ⟨hloa', hupa', ?_⟩
    intro hc
    have : up'.angle = lo'.angle := by linarith [sub_eq_zero.1 hc]
    linarith

/-- C10 witness: a table with a duplicated `4°` entry still yields a
strict bracket at `6°`. -/
theorem scanRate_bracket_never_degenerate_witness :
    (findBracket (clampAngle 6)
      (sortSpecs [⟨4, 60, "a"⟩, ⟨4, 55, "a2"⟩, ⟨8, 40, "b"⟩])).isSome = true :=
  (scanRate_bracket_never_degenerate
    ⟨"w10", [⟨4, 60, "a"⟩, ⟨4, 55, "a2"⟩, ⟨8, 40, "b"⟩], none, none⟩ 6
    (by decide) (by decide) (by decide)).1

/-- C2 counterexample: a scanner with `maxKpps = -5` returns a negative
`kpps` (`min(60, -5) = -5`, note "Max KPPS (-5K)"), and a scanner whose
only point has `kpps = 1/2 > 0` returns `1/2 < 1` on exact match with an
ordinary note — refuting both halves of the claim as stated. -/
theorem scanRate_negative_and_fractional :
    (getRecommendedScanRate (some ⟨"c2a", [⟨8, 40, "x"⟩], none, some (-5)⟩) 4 =
        ⟨-5, "Max KPPS (-5K)"⟩ ∧ (-5 : ℚ) < 0) ∧
      (getRecommendedScanRate (some ⟨"c2b", [⟨8, 1/2, "half"⟩], none, none⟩) 8 =
        ⟨1/2, "half"⟩ ∧ (1/2 : ℚ) < 1) := by
  refine ⟨⟨?_, ?_⟩, ?_, ?_⟩
  · decide
  · decide
  · decide
  · decide

/-- The `maxKpps` cap step of the interpolation branch keeps any lower
bound that holds for the uncapped value and for a defined `maxKpps`. -/
theorem capResult_kpps_ge (mk : Option ℚ) (K : ℚ) (n1 n2 : String) (c : ℚ)
    (hK : c ≤ K) (hmk : ∀ m, mk = some m → c ≤ m) :
    c ≤ (if truthyNum mk ∧ K > mk.getD 0 then
          ScanRateResult.mk (mk.getD 0) n1
        else ScanRateResult.mk K n2).kpps := by
  by_cases h : truthyNum mk ∧ K > mk.getD 0
  · rw [if_pos h]
    cases mk with
    | none => simp [truthyNum] at h
    | some m => exact hmk m rfl
  · rw [if_neg h]
    exact hK

/-- C2 (amended): if every spec point has positive `kpps` and a defined
`maxKpps` is nonnegative, the estimator never returns `kpps < 0`;
moreover if every spec point has `kpps ≥ 1` and a defined `maxKpps` is
`≥ 1`, then whenever the returned note is neither `"Unknown"` nor an
"Exceeds max angle" note, the returned `kpps` is at least `1`. -/
theorem scanRate_kpps_bounds (s : Scanner) (angle : ℚ)
    (hk : ∀ p ∈ s.specs, 0 < p.kpps)
    (hmk : ∀ m, s.maxKpps = some m → 0 ≤ m) :
    0 ≤ (getRecommendedScanRate (some s) angle).kpps ∧
      ((∀ p ∈ s.specs, 1 ≤ p.kpps) → (∀ m, s.maxKpps = some m → 1 ≤ m) →
        (getRecommendedScanRate (some s) angle).note ≠ "Unknown" →
        (getRecommendedScanRate (some s) angle).note ≠
          "Exceeds max angle (" ++ numStr (s.maxAngle.getD 0) ++ "°)" →
        1 ≤ (getRecommendedScanRate (some s) angle).kpps) := by
  by_cases hne : s.specs = []
  · simp only [getRecommendedScanRate, if_pos hne]
    refine ⟨le_refl 0, ?_⟩
    intro _ _ hnote _
    exact absurd rfl hnote
  by_cases hgate : truthyNum s.maxAngle = true ∧ s.maxAngle.getD 0 < angle
  · simp only [getRecommendedScanRate, if_neg hne, if_pos hgate]
    refine ⟨le_refl 0, ?_⟩
    intro _ _ _ hex
    exact absurd rfl hex
  cases hfind : (sortSpecs s.specs).find?
      (fun spec => decide (spec.angle = clampAngle angle)) with
  | some q =>
    have hqmem : q ∈ s.specs := mem_sortSpecs.1 (List.mem_of_find?_eq_some hfind)
    simp only [getRecommendedScanRate, if_neg hne, if_neg hgate, hfind]
    exact ⟨(hk q hqmem).le, fun hk1 _ _ _ => hk1 q hqmem⟩
  | none =>
    obtain ⟨first, rest, hsort⟩ := List.exists_cons_of_ne_nil (sortSpecs_ne_nil hne)
    have hfmem : first ∈ s.specs := by
      apply mem_sortSpecs.1
      rw [hsort]
      exact List.mem_cons_self first rest
    rw [hsort] at hfind
    simp only [getRecommendedScanRate, if_neg hne, if_neg hgate, hsort, hfind]
    by_cases hb : clampAngle angle < first.angle
    · rw [if_pos hb]
      have hcap : 1 < (if clampAngle angle = 0 then (3/2 : ℚ)
          else min (first.angle / clampAngle angle) (3/2)) := by
        by_cases ha0 : clampAngle angle = 0
        · rw [if_pos ha0]
          norm_num
        · rw [if_neg ha0]
          have hapos : 0 < clampAngle angle :=
            lt_of_le_of_ne (clampAngle_nonneg angle) (Ne.symm ha0)
          apply lt_min
          · exact (one_lt_div hapos).2 hb
          · norm_num
      have hraw0 : 0 ≤ jsRound (first.kpps * (if clampAngle angle = 0 then (3/2 : ℚ)
          else min (first.angle / clampAngle angle) (3/2))) :=
        jsRound_nonneg (mul_nonneg (hk first hfmem).le (by linarith))
      constructor
      · by_cases htr : truthyNum s.maxKpps = true
        · rw [if_pos htr]
          cases hmks : s.maxKpps with
          | none => rw [hmks] at htr; simp [truthyNum] at htr
          | some m =>
            rw [Option.getD_some]
            exact le_min hraw0 (hmk m hmks)
        · rw [if_neg htr]
          exact hraw0
      · intro hk1 hmk1 _ _
        have hraw1 : 1 ≤ jsRound (first.kpps * (if clampAngle angle = 0 then (3/2 : ℚ)
            else min (first.angle / clampAngle angle) (3/2))) := by
          apply jsRound_ge_one
          have h1 := hk1 first hfmem
          nlinarith
        by_cases htr : truthyNum s.maxKpps = true
        · rw [if_pos htr]
          cases hmks : s.maxKpps with
          | none => rw [hmks] at htr; simp [truthyNum] at htr
          | some m =>
            rw [Option.getD_some]
            exact le_min hraw1 (hmk1 m hmks)
        · rw [if_neg htr]
          exact hraw1
    · rw [if_neg hb]
      by_cases ha : ((first :: rest).getLast (List.cons_ne_nil first rest)).angle <
          clampAngle angle
      · rw [if_pos ha]
        refine ⟨?_, fun _ _ _ _ => le_max_left 1 _⟩
        exact le_trans zero_le_one (le_max_left 1 _)
      · rw [if_neg ha]
        refine ⟨?_, ?_⟩
        · exact capResult_kpps_ge s.maxKpps _ _ _ 0
            (le_trans zero_le_one (le_max_left 1 _)) hmk
        · intro _ hmk1 _ _
          exact capResult_kpps_ge s.maxKpps _ _ _ 1 (le_max_left 1 _) hmk1

/-- C2 witness: specs `{8°: 40K}` with `maxKpps = 30` queried at `4°`
(clamped to `30` with the "Max KPPS" note): both bounds hold. -/
theorem scanRate_kpps_bounds_witness :
    0 ≤ (getRecommendedScanRate (some ⟨"w2", [⟨8, 40, "x"⟩], none, some 30⟩) 4).kpps ∧
      1 ≤ (getRecommendedScanRate (some ⟨"w2", [⟨8, 40, "x"⟩], none, some 30⟩) 4).kpps := by
  have h := scanRate_kpps_bounds ⟨"w2", [⟨8, 40, "x"⟩], none, some 30⟩ 4
    (by decide) (by intro m hm; injection hm with h1; rw [← h1]; norm_num)
  exact ⟨h.1, h.2 (by decide)
    (by intro m hm; injection hm with h1; rw [← h1]; norm_num) (by decide) (by decide)⟩
